import Mathlib

/-!
Shallow embedding of the blackjack rules engine (crates `blackjack` and the
older `src` crate in this repository).  The data model and the operations are
translated from `src/blackjack/src/{game.rs, hand.rs}` and `src/src/deck.rs`.
Machine integers (`u8` in `Score(pub u8)` and `Value(pub u8)`) are modelled as
`Nat` with explicit `% 256` where the Rust arithmetic is performed on `u8`.
Fallible Rust functions returning `Result<_, Box<dyn Error>>` are modelled with
`Except GameError`, where `GameError` distinguishes the three concrete error
types of the source (`EmptyDeckError`, `InvalidStateError`, `NotFoundError`).
The randomized `Deck::shuffle` is modelled by passing the shuffled deck as an
explicit parameter, constrained (where a claim needs it) to be a permutation
of the standard 52-card deck.
-/

namespace Blackjack

/-- `Suit` from `src/src/deck.rs`. -/
inductive Suit
  | Heart
  | Diamond
  | Spade
  | Club
deriving DecidableEq, Repr

/-- `Rank` from `src/src/deck.rs`. -/
inductive Rank
  | Two
  | Three
  | Four
  | Five
  | Six
  | Seven
  | Eight
  | Nine
  | Ten
  | Jack
  | Queen
  | King
  | Ace
deriving DecidableEq, Repr

/-- `Rank::to_value` from `src/src/deck.rs` (`Value(pub u8)`; all values fit in `u8`). -/
def Rank.to_value : Rank → Nat
  | .Two => 2
  | .Three => 3
  | .Four => 4
  | .Five => 5
  | .Six => 6
  | .Seven => 7
  | .Eight => 8
  | .Nine => 9
  | .Ten => 10
  | .King => 10
  | .Queen => 10
  | .Jack => 10
  | .Ace => 11

/-- `Card` from `src/src/deck.rs`. -/
structure Card where
  suit : Suit
  rank : Rank
deriving DecidableEq, Repr

/-- The error kinds of the source: `EmptyDeckError` (deck.rs), `InvalidStateError`
and `NotFoundError` (game.rs). -/
inductive GameError
  | EmptyDeck
  | InvalidState
  | NotFound
deriving DecidableEq, Repr

/-- `Deck` from `src/src/deck.rs`: an ordered sequence of cards, front = next to deal. -/
structure Deck where
  cards : List Card
deriving DecidableEq, Repr

/-- The fixed iteration order of `Suit::iter()` (declaration order of the enum). -/
def allSuits : List Suit := [.Heart, .Diamond, .Spade, .Club]

/-- The fixed iteration order of `Rank::iter()` (declaration order of the enum). -/
def allRanks : List Rank :=
  [.Two, .Three, .Four, .Five, .Six, .Seven, .Eight, .Nine, .Ten,
   .Jack, .Queen, .King, .Ace]

/-- `Deck::standard_deck`: for each suit, push one card of each rank. -/
def Deck.standard_deck : Deck :=
  ⟨allSuits.flatMap fun s => allRanks.map fun r => ⟨s, r⟩⟩

/-- `Deck::deal`: pop the front card, or fail with `EmptyDeckError`. -/
def Deck.deal (d : Deck) : Except GameError (Deck × Card) :=
  match d.cards with
  | [] => .error .EmptyDeck
  | c :: rest => .ok (⟨rest⟩, c)

/-- `Hand` from `src/blackjack/src/hand.rs`: an ordered sequence of cards. -/
structure Hand where
  cards : List Card
deriving DecidableEq, Repr

def Hand.new : Hand := ⟨[]⟩

/-- `Hand::add`: append a card (push_back). -/
def Hand.add (h : Hand) (c : Card) : Hand := ⟨h.cards ++ [c]⟩

/-- `Hand::ace_count`. -/
def Hand.ace_count (h : Hand) : Nat :=
  (h.cards.filter fun c => c.rank = Rank.Ace).length

/-- The `u8` sum of card values in `Hand::score`
(`self.0.iter().map(|card| card.rank.to_value().0).sum()` at type `u8`):
each addition wraps modulo 256. -/
def hard_value_u8 (cards : List Card) : Nat :=
  cards.foldl (fun acc c => (acc + c.rank.to_value) % 256) 0

/-- The ace-reduction loop of `Hand::score`: iterate `ace_count` times; on each
iteration, if the running value exceeds 21 subtract 10 and stop as soon as the
value is ≤ 21 after a subtraction. -/
def reduce_aces : Nat → Nat → Nat
  | 0, v => v
  | n + 1, v =>
    if 21 < v then
      if v - 10 ≤ 21 then v - 10 else reduce_aces n (v - 10)
    else reduce_aces n v

/-- `Hand::score` from `src/blackjack/src/hand.rs`, with `u8` arithmetic made
explicit.  The returned `Score(u8)` value is represented as a `Nat` < 256. -/
def Hand.score (h : Hand) : Nat :=
  reduce_aces h.ace_count (hard_value_u8 h.cards)

/-- The mathematical hard total of a hand: the exact sum of card values, every
Ace counted 11, with no machine-width truncation.  This is the spec-side
notion of "hard total" used to compare against the `u8` computation. -/
def hard_total (cards : List Card) : Nat :=
  (cards.map fun c => c.rank.to_value).sum

/-- The score as described by the spec (§4.2): the exact hard total with 10
subtracted once per Ace, in sequence, only while the running total exceeds 21,
stopping as soon as a subtraction brings it to 21 or below. -/
def spec_score (h : Hand) : Nat :=
  reduce_aces h.ace_count (hard_total h.cards)

/-- `DealerHand` from `src/blackjack/src/hand.rs`. -/
structure DealerHand where
  hand : Hand
deriving DecidableEq, Repr

def DealerHand.new : DealerHand := ⟨Hand.new⟩

def DealerHand.add (d : DealerHand) (c : Card) : DealerHand := ⟨d.hand.add c⟩

def DealerHand.score (d : DealerHand) : Nat := d.hand.score

def DealerHand.cards (d : DealerHand) : List Card := d.hand.cards

/-- `DealerHand::hole_card`: the front card, if any. -/
def DealerHand.hole_card (d : DealerHand) : Option Card := d.hand.cards.head?

/-- `DealerHand::upcard`: the second card, if any. -/
def DealerHand.upcard (d : DealerHand) : Option Card := d.hand.cards.get? 1

/-- `Context` from `src/blackjack/src/game.rs`. -/
structure Context where
  deck : Deck
  player_hand : Hand
  dealer_hand : DealerHand
deriving DecidableEq, Repr

/-- `Context::new`. -/
def Context.new (d : Deck) : Context := ⟨d, Hand.new, DealerHand.new⟩

def Context.player_score (ctx : Context) : Nat := ctx.player_hand.score

def Context.dealer_score (ctx : Context) : Nat := ctx.dealer_hand.score

def Context.player_blackjack (ctx : Context) : Bool :=
  decide (ctx.player_score = 21)

def Context.dealer_blackjack (ctx : Context) : Bool :=
  decide (ctx.dealer_score = 21)

def Context.double_blackjack (ctx : Context) : Bool :=
  ctx.player_blackjack && ctx.dealer_blackjack

def Context.player_busts (ctx : Context) : Bool :=
  decide (21 < ctx.player_score)

def Context.dealer_busts (ctx : Context) : Bool :=
  decide (21 < ctx.dealer_score)

/-- `Context::player_wins` (blackjack crate, symmetric bust-aware version). -/
def Context.player_wins (ctx : Context) : Bool :=
  decide (ctx.dealer_score < ctx.player_score) || ctx.dealer_busts

/-- `Context::dealer_wins` (blackjack crate). -/
def Context.dealer_wins (ctx : Context) : Bool :=
  decide (ctx.player_score < ctx.dealer_score) && !ctx.dealer_busts

def Context.draw (ctx : Context) : Bool :=
  decide (ctx.player_score = ctx.dealer_score)

/-- `Context::deal_initial_hands`: draw 4 cards, alternating player / dealer,
starting fresh hands. -/
def Context.deal_initial_hands (ctx : Context) : Except GameError Context := do
  let (d1, first_card) ← ctx.deck.deal
  let (d2, second_card) ← d1.deal
  let (d3, third_card) ← d2.deal
  let (d4, fourth_card) ← d3.deal
  pure { deck := d4,
         player_hand := (Hand.new.add first_card).add third_card,
         dealer_hand := (DealerHand.new.add second_card).add fourth_card }

/-- `Context::deal_player_card`: draw one card and append it to the player hand. -/
def Context.deal_player_card (ctx : Context) : Except GameError Context := do
  let (d, c) ← ctx.deck.deal
  pure { deck := d,
         player_hand := ctx.player_hand.add c,
         dealer_hand := ctx.dealer_hand }

/-- The `while dealer_score < 17` loop of `Context::play_dealer_hand`, with
fuel making termination explicit.  When the fuel is at least the deck size the
fuel-exhaustion branch is unreachable, so `play_dealer_hand` below is an exact
model of the Rust loop. -/
def playDealerHandFuel : Nat → Context → Except GameError Context
  | 0, ctx =>
    if ctx.dealer_score < 17 then
      match ctx.deck.deal with
      | .error e => .error e
      | .ok _ => .error .EmptyDeck
    else .ok ctx
  | f + 1, ctx =>
    if ctx.dealer_score < 17 then
      match ctx.deck.deal with
      | .error e => .error e
      | .ok (d, c) =>
          playDealerHandFuel f
            { deck := d, player_hand := ctx.player_hand,
              dealer_hand := ctx.dealer_hand.add c }
    else .ok ctx

/-- `Context::play_dealer_hand`: draw while the dealer score is below 17. -/
def Context.play_dealer_hand (ctx : Context) : Except GameError Context :=
  playDealerHandFuel ctx.deck.cards.length ctx

/-- `Action` from `src/blackjack/src/game.rs`. -/
inductive Action
  | NewHand (player : Hand) (dealer : DealerHand)
  | NewPlayerCard (c : Card)
  | NewDealerCards (cs : List Card)
  | PlayerWins
  | DealerWins
  | Draw
  | ShowDealerHoleCard (c : Card)
deriving DecidableEq, Repr

/-- `GameState` from `src/blackjack/src/game.rs`. -/
inductive GameState
  | Ready (ctx : Context)
  | WaitingForPlayer (ctx : Context)
  | DealerWins (ctx : Context)
  | PlayerWins (ctx : Context)
  | Draw (ctx : Context)
deriving DecidableEq, Repr

/-- The context carried by a game state (every variant carries one). -/
def GameState.context : GameState → Context
  | .Ready ctx => ctx
  | .WaitingForPlayer ctx => ctx
  | .DealerWins ctx => ctx
  | .PlayerWins ctx => ctx
  | .Draw ctx => ctx

/-- `new_hand_action` from `src/blackjack/src/game.rs`. -/
def new_hand_action (ctx : Context) : Action :=
  .NewHand ctx.player_hand ctx.dealer_hand

/-- Model of `Option::unwrap` on a card: the source panics on `None`; here a
default card is returned, and reachability proofs show the option is always
`some` at every `unwrap` call site of the source. -/
def unwrap_card (o : Option Card) : Card :=
  o.getD ⟨Suit.Heart, Rank.Two⟩

/-- The `GameState::Ready` branch of `deal` from `src/blackjack/src/game.rs`. -/
def deal_from_ready (ctx : Context) : Except GameError (GameState × List Action) := do
  let newCtx ← ctx.deal_initial_hands
  if newCtx.double_blackjack then
    pure (.Draw newCtx,
      [.Draw, .ShowDealerHoleCard (unwrap_card newCtx.dealer_hand.hole_card),
       new_hand_action newCtx])
  else if newCtx.dealer_blackjack then
    pure (.DealerWins newCtx,
      [.DealerWins, .ShowDealerHoleCard (unwrap_card newCtx.dealer_hand.hole_card),
       new_hand_action newCtx])
  else if newCtx.player_blackjack then
    pure (.PlayerWins newCtx,
      [.PlayerWins, .ShowDealerHoleCard (unwrap_card newCtx.dealer_hand.hole_card),
       new_hand_action newCtx])
  else
    pure (.WaitingForPlayer newCtx, [new_hand_action newCtx])

/-- `deal` from `src/blackjack/src/game.rs`.  From a terminal state the source
builds `Context::new_hand()` (a freshly shuffled standard deck) and recurses
into the `Ready` branch; the shuffled deck is the explicit `fresh` parameter. -/
def deal (fresh : Deck) : GameState → Except GameError (GameState × List Action)
  | .Ready ctx => deal_from_ready ctx
  | .WaitingForPlayer _ => .error .InvalidState
  | .DealerWins _ => deal_from_ready (Context.new fresh)
  | .PlayerWins _ => deal_from_ready (Context.new fresh)
  | .Draw _ => deal_from_ready (Context.new fresh)

/-- `stand` from `src/blackjack/src/game.rs`. -/
def stand : GameState → Except GameError (GameState × List Action)
  | .WaitingForPlayer ctx => do
    let newCtx ← ctx.play_dealer_hand
    let nextDealerCards := newCtx.dealer_hand.cards.drop 2
    let actions :=
      if 0 < nextDealerCards.length then
        [Action.ShowDealerHoleCard (unwrap_card newCtx.dealer_hand.hole_card),
         Action.NewDealerCards nextDealerCards]
      else
        [Action.ShowDealerHoleCard (unwrap_card newCtx.dealer_hand.hole_card)]
    if newCtx.dealer_wins then
      pure (.DealerWins newCtx, Action.DealerWins :: actions)
    else if newCtx.player_wins then
      pure (.PlayerWins newCtx, Action.PlayerWins :: actions)
    else if newCtx.draw then
      pure (.Draw newCtx, Action.Draw :: actions)
    else
      pure (.WaitingForPlayer newCtx, [])
  | _ => .error .InvalidState

/-- `hit` from `src/blackjack/src/game.rs`. -/
def hit : GameState → Except GameError (GameState × List Action)
  | .WaitingForPlayer ctx => do
    let newCtx ← ctx.deal_player_card
    let dealt_card ←
      match newCtx.player_hand.cards.getLast? with
      | none => Except.error GameError.NotFound
      | some c => Except.ok c
    if newCtx.player_blackjack then
      let (finalState, actions) ← stand (.WaitingForPlayer newCtx)
      pure (finalState, Action.NewPlayerCard dealt_card :: actions)
    else if newCtx.player_busts then
      pure (.DealerWins newCtx,
        [Action.NewPlayerCard dealt_card, Action.DealerWins,
         Action.ShowDealerHoleCard (unwrap_card newCtx.dealer_hand.hole_card)])
    else
      pure (.WaitingForPlayer newCtx, [Action.NewPlayerCard dealt_card])
  | _ => .error .InvalidState

/-- The states reachable from `GameState::new()` by successful `deal`, `hit`
and `stand` transitions.  Every freshly shuffled deck (`Context::new_hand`) is
a permutation of the standard deck. -/
inductive Reachable : GameState → Prop
  | init (d : Deck) (hperm : d.cards.Perm Deck.standard_deck.cards) :
      Reachable (.Ready (Context.new d))
  | deal_step (fresh : Deck) (s s' : GameState) (acts : List Action)
      (hperm : fresh.cards.Perm Deck.standard_deck.cards)
      (hs : Reachable s) (hok : deal fresh s = .ok (s', acts)) : Reachable s'
  | hit_step (s s' : GameState) (acts : List Action)
      (hs : Reachable s) (hok : hit s = .ok (s', acts)) : Reachable s'
  | stand_step (s s' : GameState) (acts : List Action)
      (hs : Reachable s) (hok : stand s = .ok (s', acts)) : Reachable s'

/-- A card of the Heart suit, as built by the repository's own test helper
`cards` (`src/blackjack/src/game.rs`), used for concrete instances. -/
def heart (r : Rank) : Card := ⟨Suit.Heart, r⟩

/-- The context produced by `deal_initial_hands` on a deck starting with four
cards `c1 c2 c3 c4`: player `[c1, c3]`, dealer `[c2, c4]`, deck the rest. -/
def dealt_context (c1 c2 c3 c4 : Card) (rest : List Card) : Context :=
  { deck := ⟨rest⟩, player_hand := ⟨[c1, c3]⟩, dealer_hand := ⟨⟨[c2, c4]⟩⟩ }

/-- The context produced by `deal_player_card` on a deck starting with `c`:
the card moves from the front of the deck to the end of the player hand. -/
def player_dealt_context (ctx : Context) (c : Card) (rest : List Card) : Context :=
  { deck := ⟨rest⟩, player_hand := ctx.player_hand.add c,
    dealer_hand := ctx.dealer_hand }

/-- Deck conservation: the cards of the deck and both hands together are a
permutation of the standard 52-card deck. -/
def handsPerm (ctx : Context) : Prop :=
  (ctx.deck.cards ++ ctx.player_hand.cards ++ ctx.dealer_hand.hand.cards).Perm
    Deck.standard_deck.cards

/-- The invariant maintained by the reachable states: deck conservation, hard
totals small enough for the `u8` arithmetic to be exact, empty hands in
`Ready`, and per-variant hand-shape facts. -/
def Inv (s : GameState) : Prop :=
  handsPerm s.context ∧
  hard_total s.context.player_hand.cards ≤ 255 ∧
  hard_total s.context.dealer_hand.hand.cards ≤ 255 ∧
  (match s with
   | .Ready ctx => ctx.player_hand = Hand.new ∧ ctx.dealer_hand = DealerHand.new
   | .WaitingForPlayer ctx =>
       ctx.player_score < 21 ∧ 2 ≤ ctx.player_hand.cards.length ∧
       ctx.dealer_hand.hand.cards.length = 2
   | _ => 2 ≤ s.context.player_hand.cards.length ∧
          2 ≤ s.context.dealer_hand.hand.cards.length)

/-! ### Scoring lemmas -/

theorem to_value_le (r : Rank) : r.to_value ≤ 11 := by
  cases r <;> simp [Rank.to_value]

theorem to_value_pos (r : Rank) : 2 ≤ r.to_value := by
  cases r <;> simp [Rank.to_value]

theorem to_value_eq_eleven {r : Rank} (h : r.to_value = 11) : r = Rank.Ace := by
  cases r <;> simp_all [Rank.to_value]

/-- The wrapping `u8` sum equals the exact sum modulo 256. -/
theorem hard_value_u8_eq (cards : List Card) :
    hard_value_u8 cards = hard_total cards % 256 := by
  suffices h : ∀ l : List Card, ∀ acc : Nat, acc ≤ 255 →
      List.foldl (fun acc c => (acc + c.rank.to_value) % 256) acc l =
        (acc + hard_total l) % 256 by
    simpa [hard_value_u8] using h cards 0 (by omega)
  intro l
  induction l with
  | nil => intro acc hacc; simp [hard_total]; omega
  | cons c t ih =>
    intro acc hacc
    have hmod : (acc + c.rank.to_value) % 256 ≤ 255 :=
      Nat.le_of_lt_succ (Nat.mod_lt _ (by omega))
    simp only [List.foldl_cons]
    rw [ih _ hmod]
    simp only [hard_total, List.map_cons, List.sum_cons]
    omega

/-- When the exact hard total fits in `u8`, the `u8` sum is exact. -/
theorem hard_value_u8_of_le {cards : List Card} (h : hard_total cards ≤ 255) :
    hard_value_u8 cards = hard_total cards := by
  rw [hard_value_u8_eq, Nat.mod_eq_of_lt (by omega)]

/-- When the exact hard total fits in `u8`, the code's score agrees with the
spec's score. -/
theorem score_eq_spec {h : Hand} (hb : hard_total h.cards ≤ 255) :
    h.score = spec_score h := by
  unfold Hand.score spec_score
  rw [hard_value_u8_of_le hb]

theorem reduce_aces_of_le {v : Nat} (n : Nat) (h : v ≤ 21) :
    reduce_aces n v = v := by
  induction n with
  | zero => rfl
  | succ n ih => simp [reduce_aces, Nat.not_lt.mpr h, ih]

/-- The reduction removes at most `10 * n` and never adds. -/
theorem reduce_aces_bounds (n : Nat) : ∀ v : Nat,
    v - 10 * n ≤ reduce_aces n v ∧ reduce_aces n v ≤ v := by
  induction n with
  | zero => intro v; simp [reduce_aces]
  | succ n ih =>
    intro v
    by_cases hv : 21 < v
    · by_cases hstop : v - 10 ≤ 21
      · simp [reduce_aces, hv, hstop]; omega
      · have := ih (v - 10)
        simp [reduce_aces, hv, hstop]
        omega
    · have := ih v
      simp [reduce_aces, hv]
      omega

/-- The hard total is at most the spec score plus `10` per Ace. -/
theorem hard_total_le_spec_score (h : Hand) :
    hard_total h.cards ≤ spec_score h + 10 * h.ace_count := by
  have := (reduce_aces_bounds h.ace_count (hard_total h.cards)).1
  unfold spec_score
  omega

theorem spec_score_le_hard_total (h : Hand) :
    spec_score h ≤ hard_total h.cards :=
  (reduce_aces_bounds h.ace_count (hard_total h.cards)).2

theorem hard_total_append (l1 l2 : List Card) :
    hard_total (l1 ++ l2) = hard_total l1 + hard_total l2 := by
  simp [hard_total]

/-- The hard total of any two cards is at most 22. -/
theorem hard_total_two_cards (c1 c2 : Card) :
    hard_total [c1, c2] ≤ 22 := by
  have h1 := to_value_le c1.rank
  have h2 := to_value_le c2.rank
  simp [hard_total]
  omega

/-- Any two cards score at most 21 under the spec scoring (a hard total of 22
can only be two Aces, which reduce to 12). -/
theorem spec_score_two_cards (c1 c2 : Card) :
    spec_score ⟨[c1, c2]⟩ ≤ 21 := by
  have h1 := to_value_le c1.rank
  have h2 := to_value_le c2.rank
  by_cases hle : c1.rank.to_value + c2.rank.to_value ≤ 21
  · unfold spec_score
    rw [reduce_aces_of_le _ (by simpa [hard_total] using hle)]
    simpa [hard_total] using hle
  · have hv1 : c1.rank.to_value = 11 := by omega
    have hv2 : c2.rank.to_value = 11 := by omega
    have ha1 := to_value_eq_eleven hv1
    have ha2 := to_value_eq_eleven hv2
    unfold spec_score Hand.ace_count
    simp [hard_total, ha1, ha2, Rank.to_value, reduce_aces]

/-- Any two cards score at most 21 under the code's scoring. -/
theorem score_two_cards (c1 c2 : Card) :
    Hand.score ⟨[c1, c2]⟩ ≤ 21 := by
  rw [score_eq_spec (le_trans (hard_total_two_cards c1 c2) (by omega))]
  exact spec_score_two_cards c1 c2

/-! ### Initial-deal lemmas -/

theorem deal_initial_hands_eq (ctx : Context) (c1 c2 c3 c4 : Card)
    (rest : List Card) (hd : ctx.deck.cards = c1 :: c2 :: c3 :: c4 :: rest) :
    ctx.deal_initial_hands = Except.ok (dealt_context c1 c2 c3 c4 rest) := by
  simp [Context.deal_initial_hands, Deck.deal, hd, Hand.add, Hand.new,
    DealerHand.add, DealerHand.new, dealt_context, bind, Except.bind, pure,
    Except.pure]

theorem deal_initial_hands_error (ctx : Context)
    (h : ctx.deck.cards.length < 4) :
    ctx.deal_initial_hands = Except.error GameError.EmptyDeck := by
  rcases hd : ctx.deck.cards with _ | ⟨a, _ | ⟨b, _ | ⟨c, _ | ⟨d, rest⟩⟩⟩⟩
  · simp [Context.deal_initial_hands, Deck.deal, hd, bind, Except.bind]
  · simp [Context.deal_initial_hands, Deck.deal, hd, bind, Except.bind]
  · simp [Context.deal_initial_hands, Deck.deal, hd, bind, Except.bind]
  · simp [Context.deal_initial_hands, Deck.deal, hd, bind, Except.bind]
  · rw [hd] at h; simp at h; omega

/-- C6: `deal_initial_hands` draws exactly the first 4 cards in strict
alternating order, player first: player hand `[c1, c3]`, dealer hand
`[c2, c4]` with `c2` the hole card and `c4` the upcard, and the remaining deck
is the original minus its first 4 cards in unchanged order. -/
theorem deal_initial_hands_alternating (ctx : Context) (c1 c2 c3 c4 : Card)
    (rest : List Card) (hd : ctx.deck.cards = c1 :: c2 :: c3 :: c4 :: rest) :
    ctx.deal_initial_hands = Except.ok (dealt_context c1 c2 c3 c4 rest) ∧
    (dealt_context c1 c2 c3 c4 rest).player_hand.cards = [c1, c3] ∧
    (dealt_context c1 c2 c3 c4 rest).dealer_hand.cards = [c2, c4] ∧
    (dealt_context c1 c2 c3 c4 rest).dealer_hand.hole_card = some c2 ∧
    (dealt_context c1 c2 c3 c4 rest).dealer_hand.upcard = some c4 ∧
    (dealt_context c1 c2 c3 c4 rest).deck.cards = ctx.deck.cards.drop 4 := by
  refine ⟨deal_initial_hands_eq ctx c1 c2 c3 c4 rest hd, rfl, rfl, rfl, rfl, ?_⟩
  simp [dealt_context, hd]

/-- C6 witness: the stacked deck `[Ace, Two, Three, Four]` yields player hand
`[Ace, Three]` and dealer hand `[Two, Four]`. -/
theorem deal_initial_hands_alternating_witness :
    (Context.new ⟨[heart .Ace, heart .Two, heart .Three, heart .Four]⟩).deal_initial_hands =
      Except.ok (dealt_context (heart .Ace) (heart .Two) (heart .Three) (heart .Four) []) ∧
    (dealt_context (heart .Ace) (heart .Two) (heart .Three) (heart .Four) []).player_hand.cards =
      [heart .Ace, heart .Three] ∧
    (dealt_context (heart .Ace) (heart .Two) (heart .Three) (heart .Four) []).dealer_hand.cards =
      [heart .Two, heart .Four] := by
  have h := deal_initial_hands_alternating
    (Context.new ⟨[heart .Ace, heart .Two, heart .Three, heart .Four]⟩)
    (heart .Ace) (heart .Two) (heart .Three) (heart .Four) [] rfl
  exact ⟨h.1, h.2.1, h.2.2.1⟩

/-- C1: on a deck of at least 4 cards, `deal` from `Ready` succeeds and
classifies the dealt context in priority order double blackjack → `Draw`,
dealer blackjack → `DealerWins`, player blackjack → `PlayerWins`, otherwise
`WaitingForPlayer`; resolution cases emit
`[resolution, ShowDealerHoleCard(hole card), NewHand]`, the continuing case
`[NewHand]` only. -/
theorem deal_ready_classification (fresh : Deck) (ctx : Context)
    (h4 : 4 ≤ ctx.deck.cards.length) :
    ∃ c1 c2 c3 c4 rest, ctx.deck.cards = c1 :: c2 :: c3 :: c4 :: rest ∧
      ctx.deal_initial_hands = Except.ok (dealt_context c1 c2 c3 c4 rest) ∧
      (dealt_context c1 c2 c3 c4 rest).dealer_hand.hole_card = some c2 ∧
      deal fresh (GameState.Ready ctx) = Except.ok (
        if (dealt_context c1 c2 c3 c4 rest).player_score = 21 ∧
            (dealt_context c1 c2 c3 c4 rest).dealer_score = 21 then
          (GameState.Draw (dealt_context c1 c2 c3 c4 rest),
           [Action.Draw, Action.ShowDealerHoleCard c2,
            new_hand_action (dealt_context c1 c2 c3 c4 rest)])
        else if (dealt_context c1 c2 c3 c4 rest).dealer_score = 21 then
          (GameState.DealerWins (dealt_context c1 c2 c3 c4 rest),
           [Action.DealerWins, Action.ShowDealerHoleCard c2,
            new_hand_action (dealt_context c1 c2 c3 c4 rest)])
        else if (dealt_context c1 c2 c3 c4 rest).player_score = 21 then
          (GameState.PlayerWins (dealt_context c1 c2 c3 c4 rest),
           [Action.PlayerWins, Action.ShowDealerHoleCard c2,
            new_hand_action (dealt_context c1 c2 c3 c4 rest)])
        else
          (GameState.WaitingForPlayer (dealt_context c1 c2 c3 c4 rest),
           [new_hand_action (dealt_context c1 c2 c3 c4 rest)])) := by
  rcases hd : ctx.deck.cards with _ | ⟨c1, _ | ⟨c2, _ | ⟨c3, _ | ⟨c4, rest⟩⟩⟩⟩ <;>
    rw [hd] at h4 <;> simp at h4
  refine ⟨c1, c2, c3, c4, rest, rfl, deal_initial_hands_eq ctx c1 c2 c3 c4 rest hd, rfl, ?_⟩
  show deal_from_ready ctx = _
  unfold deal_from_ready
  rw [deal_initial_hands_eq ctx c1 c2 c3 c4 rest hd]
  have hhc : unwrap_card (dealt_context c1 c2 c3 c4 rest).dealer_hand.hole_card = c2 := rfl
  by_cases hp : (dealt_context c1 c2 c3 c4 rest).player_score = 21 <;>
    by_cases hdl : (dealt_context c1 c2 c3 c4 rest).dealer_score = 21 <;>
      simp [Context.double_blackjack, Context.player_blackjack,
        Context.dealer_blackjack, hp, hdl, bind, Except.bind, pure,
        Except.pure, hhc]

/-- C1 witness: a concrete stacked deck (dealer blackjack scenario of §8). -/
theorem deal_ready_classification_witness :
    4 ≤ (Context.new ⟨[heart .Two, heart .Ace, heart .Two, heart .Ten]⟩).deck.cards.length ∧
    (∃ c1 c2 c3 c4 rest,
      (Context.new ⟨[heart .Two, heart .Ace, heart .Two, heart .Ten]⟩).deck.cards =
        c1 :: c2 :: c3 :: c4 :: rest ∧
      (Context.new ⟨[heart .Two, heart .Ace, heart .Two, heart .Ten]⟩).deal_initial_hands =
        Except.ok (dealt_context c1 c2 c3 c4 rest) ∧
      (dealt_context c1 c2 c3 c4 rest).dealer_hand.hole_card = some c2 ∧
      deal ⟨[]⟩ (GameState.Ready (Context.new ⟨[heart .Two, heart .Ace, heart .Two, heart .Ten]⟩)) =
        Except.ok (
        if (dealt_context c1 c2 c3 c4 rest).player_score = 21 ∧
            (dealt_context c1 c2 c3 c4 rest).dealer_score = 21 then
          (GameState.Draw (dealt_context c1 c2 c3 c4 rest),
           [Action.Draw, Action.ShowDealerHoleCard c2,
            new_hand_action (dealt_context c1 c2 c3 c4 rest)])
        else if (dealt_context c1 c2 c3 c4 rest).dealer_score = 21 then
          (GameState.DealerWins (dealt_context c1 c2 c3 c4 rest),
           [Action.DealerWins, Action.ShowDealerHoleCard c2,
            new_hand_action (dealt_context c1 c2 c3 c4 rest)])
        else if (dealt_context c1 c2 c3 c4 rest).player_score = 21 then
          (GameState.PlayerWins (dealt_context c1 c2 c3 c4 rest),
           [Action.PlayerWins, Action.ShowDealerHoleCard c2,
            new_hand_action (dealt_context c1 c2 c3 c4 rest)])
        else
          (GameState.WaitingForPlayer (dealt_context c1 c2 c3 c4 rest),
           [new_hand_action (dealt_context c1 c2 c3 c4 rest)]))) :=
  ⟨by decide,
   deal_ready_classification ⟨[]⟩
     (Context.new ⟨[heart .Two, heart .Ace, heart .Two, heart .Ten]⟩) (by decide)⟩

/-! ### C2: the scoring algorithm -/

/-- C2 counterexample: a hand of 26 ten-valued cards has hard total 260 and no
Ace, so the claimed score (hard total, reduced per Ace) is 260, but the code's
`u8` accumulation wraps and returns 4. -/
theorem score_overflow_counterexample :
    hard_total (List.replicate 26 (heart .Ten)) = 260 ∧
    spec_score ⟨List.replicate 26 (heart .Ten)⟩ = 260 ∧
    Hand.score ⟨List.replicate 26 (heart .Ten)⟩ = 4 ∧
    Hand.score ⟨List.replicate 26 (heart .Ten)⟩ ≠
      spec_score ⟨List.replicate 26 (heart .Ten)⟩ := by
  refine ⟨by decide, by decide, by decide, by decide⟩

/-- C2 (amended): for every hand whose hard total fits in `u8` (≤ 255) —
which includes every hand of at most 23 cards — `score()` equals the hard
total with 10 subtracted once per Ace, in sequence, only while the running
total exceeds 21, stopping as soon as a subtraction brings it to 21 or below;
the spec's four examples hold. -/
theorem score_eq_spec_reduction (h : Hand) (hb : hard_total h.cards ≤ 255) :
    h.score = spec_score h ∧
    Hand.score ⟨[]⟩ = 0 ∧
    Hand.score ⟨[heart .Ace, heart .Ten]⟩ = 21 ∧
    Hand.score ⟨[heart .Ten, heart .Ace, heart .Ace]⟩ = 12 ∧
    Hand.score ⟨[heart .Ten, heart .Ten, heart .Ace, heart .Ace]⟩ = 22 :=
  ⟨score_eq_spec hb, by decide, by decide, by decide, by decide⟩

/-- C2 witness: the amended theorem applied at the hand `[Ace, Ten]`. -/
theorem score_eq_spec_reduction_witness :
    Hand.score ⟨[heart .Ace, heart .Ten]⟩ = spec_score ⟨[heart .Ace, heart .Ten]⟩ :=
  (score_eq_spec_reduction ⟨[heart .Ace, heart .Ten]⟩ (by decide)).1

/-! ### Deck lemmas -/

theorem Deck.deal_ok {dk d : Deck} {c : Card} (h : dk.deal = Except.ok (d, c)) :
    dk.cards = c :: d.cards := by
  unfold Deck.deal at h
  rcases hd : dk.cards with _ | ⟨a, t⟩ <;> rw [hd] at h <;> simp at h
  rw [← h.1, ← h.2]

theorem Deck.deal_error {dk : Deck} {e : GameError} (h : dk.deal = Except.error e) :
    e = GameError.EmptyDeck ∧ dk.cards = [] := by
  unfold Deck.deal at h
  rcases hd : dk.cards with _ | ⟨a, t⟩ <;> rw [hd] at h <;> simp at h
  exact ⟨h.symm, rfl⟩

/-! ### The dealer-play loop -/

/-- Characterization of a successful run of the `while dealer_score < 17`
loop: the dealer hand is extended by the cards drawn from the front of the
deck, the player hand is untouched, the final score is at least 17, and every
draw happened while the score was still below 17. -/
theorem playFuel_ok (fuel : Nat) : ∀ ctx ctx' : Context,
    playDealerHandFuel fuel ctx = Except.ok ctx' →
    ∃ drawn : List Card,
      ctx'.player_hand = ctx.player_hand ∧
      ctx'.dealer_hand.hand.cards = ctx.dealer_hand.hand.cards ++ drawn ∧
      ctx.deck.cards = drawn ++ ctx'.deck.cards ∧
      17 ≤ ctx'.dealer_score ∧
      (∀ i, i < drawn.length →
        Hand.score ⟨ctx.dealer_hand.hand.cards ++ drawn.take i⟩ < 17) := by
  induction fuel with
  | zero =>
    intro ctx ctx' hok
    unfold playDealerHandFuel at hok
    by_cases h17 : ctx.dealer_score < 17
    · rw [if_pos h17] at hok
      rcases hdeal : ctx.deck.deal with e | ⟨d, c⟩ <;> rw [hdeal] at hok <;> simp at hok
    · rw [if_neg h17] at hok
      simp at hok
      exact ⟨[], by simp [← hok], by simp [← hok], by simp [← hok],
        by rw [← hok]; omega, by simp⟩
  | succ f ih =>
    intro ctx ctx' hok
    unfold playDealerHandFuel at hok
    by_cases h17 : ctx.dealer_score < 17
    · rw [if_pos h17] at hok
      rcases hdeal : ctx.deck.deal with e | ⟨d, c⟩ <;> rw [hdeal] at hok
      · simp at hok
      · obtain ⟨drawn, hp, hdl, hdeck, hscore, hguard⟩ := ih _ _ hok
        refine ⟨c :: drawn, hp, ?_, ?_, hscore, ?_⟩
        · rw [hdl]; simp [DealerHand.add, Hand.add]
        · rw [Deck.deal_ok hdeal]
          simpa using hdeck
        · intro i hi
          cases i with
          | zero => simpa [Context.dealer_score, DealerHand.score] using h17
          | succ j =>
            have hg := hguard j (by simpa using hi)
            simpa [DealerHand.add, Hand.add] using hg
    · rw [if_neg h17] at hok
      simp at hok
      exact ⟨[], by simp [← hok], by simp [← hok], by simp [← hok],
        by rw [← hok]; omega, by simp⟩

/-- A failing run of the loop only ever fails with `EmptyDeck`. -/
theorem playFuel_error (fuel : Nat) : ∀ (ctx : Context) (e : GameError),
    playDealerHandFuel fuel ctx = Except.error e → e = GameError.EmptyDeck := by
  induction fuel with
  | zero =>
    intro ctx e hok
    unfold playDealerHandFuel at hok
    by_cases h17 : ctx.dealer_score < 17
    · rw [if_pos h17] at hok
      rcases hdeal : ctx.deck.deal with e' | ⟨d, c⟩ <;> rw [hdeal] at hok <;>
        simp at hok
      · rw [← hok]; exact (Deck.deal_error hdeal).1
      · exact hok.symm
    · rw [if_neg h17] at hok; simp at hok
  | succ f ih =>
    intro ctx e hok
    unfold playDealerHandFuel at hok
    by_cases h17 : ctx.dealer_score < 17
    · rw [if_pos h17] at hok
      rcases hdeal : ctx.deck.deal with e' | ⟨d, c⟩ <;> rw [hdeal] at hok
      · simp at hok; rw [← hok]; exact (Deck.deal_error hdeal).1
      · exact ih _ _ hok
    · rw [if_neg h17] at hok; simp at hok

theorem play_dealer_hand_ok {ctx ctx' : Context}
    (h : ctx.play_dealer_hand = Except.ok ctx') :
    ∃ drawn : List Card,
      ctx'.player_hand = ctx.player_hand ∧
      ctx'.dealer_hand.hand.cards = ctx.dealer_hand.hand.cards ++ drawn ∧
      ctx.deck.cards = drawn ++ ctx'.deck.cards ∧
      17 ≤ ctx'.dealer_score ∧
      (∀ i, i < drawn.length →
        Hand.score ⟨ctx.dealer_hand.hand.cards ++ drawn.take i⟩ < 17) :=
  playFuel_ok _ _ _ h

theorem play_dealer_hand_error {ctx : Context} {e : GameError}
    (h : ctx.play_dealer_hand = Except.error e) : e = GameError.EmptyDeck :=
  playFuel_error _ _ _ h

/-- The three outcome predicates of the blackjack crate cover every context:
if `dealer_wins`, `player_wins` and `draw` are all false we get a
contradiction, so `stand`'s fallthrough branch is unreachable. -/
theorem outcome_total (ctx : Context) (hdw : ctx.dealer_wins = false)
    (hpw : ctx.player_wins = false) (hdr : ctx.draw = false) : False := by
  simp [Context.dealer_wins, Context.player_wins, Context.draw,
    Context.dealer_busts] at hdw hpw hdr
  omega

/-- C3: on a `WaitingForPlayer` context whose dealer hand holds its original 2
cards, a successful `stand` extends the dealer hand by drawing from the front
of the deck exactly while the dealer score is below 17, and returns
`[resolution, ShowDealerHoleCard(hole card)]` followed by `NewDealerCards` of
exactly the extra cards in draw order, present iff at least one was drawn. -/
theorem stand_plays_dealer (ctx : Context)
    (hdlen : ctx.dealer_hand.hand.cards.length = 2)
    (st : GameState) (acts : List Action)
    (hok : stand (GameState.WaitingForPlayer ctx) = Except.ok (st, acts)) :
    ∃ (ctx' : Context) (drawn : List Card) (hc : Card) (res : Action),
      ctx.play_dealer_hand = Except.ok ctx' ∧
      ctx'.player_hand = ctx.player_hand ∧
      ctx'.dealer_hand.hand.cards = ctx.dealer_hand.hand.cards ++ drawn ∧
      ctx.deck.cards = drawn ++ ctx'.deck.cards ∧
      17 ≤ ctx'.dealer_score ∧
      (∀ i, i < drawn.length →
        Hand.score ⟨ctx.dealer_hand.hand.cards ++ drawn.take i⟩ < 17) ∧
      ctx.dealer_hand.hole_card = some hc ∧
      ctx'.dealer_hand.hole_card = some hc ∧
      (res = Action.DealerWins ∨ res = Action.PlayerWins ∨ res = Action.Draw) ∧
      acts = res :: Action.ShowDealerHoleCard hc ::
        (if drawn = [] then [] else [Action.NewDealerCards drawn]) := by
  simp only [stand] at hok
  rcases hplay : ctx.play_dealer_hand with e | ctx' <;> rw [hplay] at hok
  · simp [bind, Except.bind] at hok
  · simp only [bind, Except.bind] at hok
    obtain ⟨drawn, hp, hdl, hdeck, hsc, hguard⟩ := play_dealer_hand_ok hplay
    obtain ⟨a, b, hab⟩ : ∃ a b, ctx.dealer_hand.hand.cards = [a, b] := by
      rcases hl : ctx.dealer_hand.hand.cards with _ | ⟨x, _ | ⟨y, _ | _⟩⟩
      · rw [hl] at hdlen; simp at hdlen
      · rw [hl] at hdlen; simp at hdlen
      · exact ⟨x, y, rfl⟩
      · rw [hl] at hdlen; simp at hdlen
    have hdrop : ctx'.dealer_hand.cards.drop 2 = drawn := by
      simp [DealerHand.cards, hdl, hab]
    have hhole : ctx'.dealer_hand.hole_card = some a := by
      simp [DealerHand.hole_card, hdl, hab]
    have hunwrap : unwrap_card ctx'.dealer_hand.hole_card = a := by
      simp [hhole, unwrap_card]
    rw [hdrop, hunwrap] at hok
    refine ⟨ctx', drawn, a, ?_⟩
    by_cases hdw : ctx'.dealer_wins = true
    · rw [if_pos hdw] at hok
      refine ⟨Action.DealerWins, rfl, hp, hdl, hdeck, hsc, hguard,
        by simp [DealerHand.hole_card, hab], hhole, Or.inl rfl, ?_⟩
      simp only [pure, Except.pure, Except.ok.injEq, Prod.mk.injEq] at hok
      rw [← hok.2]
      cases drawn <;> simp
    · rw [if_neg hdw] at hok
      by_cases hpw : ctx'.player_wins = true
      · rw [if_pos hpw] at hok
        refine ⟨Action.PlayerWins, rfl, hp, hdl, hdeck, hsc, hguard,
          by simp [DealerHand.hole_card, hab], hhole, Or.inr (Or.inl rfl), ?_⟩
        simp only [pure, Except.pure, Except.ok.injEq, Prod.mk.injEq] at hok
        rw [← hok.2]
        cases drawn <;> simp
      · rw [if_neg hpw] at hok
        by_cases hdr : ctx'.draw = true
        · rw [if_pos hdr] at hok
          refine ⟨Action.Draw, rfl, hp, hdl, hdeck, hsc, hguard,
            by simp [DealerHand.hole_card, hab], hhole, Or.inr (Or.inr rfl), ?_⟩
          simp only [pure, Except.pure, Except.ok.injEq, Prod.mk.injEq] at hok
          rw [← hok.2]
          cases drawn <;> simp
        · exact absurd (outcome_total ctx' (Bool.not_eq_true _ ▸ hdw)
            (Bool.not_eq_true _ ▸ hpw) (Bool.not_eq_true _ ▸ hdr)) (by simp)

/-- C3 witness: the §8 scenario — player `[Ten, Ten]`, dealer `[Ten, Six]`,
deck `[Ace]`: the dealer draws the Ace to reach 17 and the player wins, with
a `NewDealerCards [Ace]` action. -/
theorem stand_plays_dealer_witness :
    ∃ (ctx' : Context) (drawn : List Card) (hc : Card) (res : Action),
      (Context.mk ⟨[heart .Ace]⟩ ⟨[heart .Ten, heart .Ten]⟩
          ⟨⟨[heart .Ten, heart .Six]⟩⟩).play_dealer_hand = Except.ok ctx' ∧
      ctx'.player_hand = (Context.mk ⟨[heart .Ace]⟩ ⟨[heart .Ten, heart .Ten]⟩
          ⟨⟨[heart .Ten, heart .Six]⟩⟩).player_hand ∧
      ctx'.dealer_hand.hand.cards = (Context.mk ⟨[heart .Ace]⟩
          ⟨[heart .Ten, heart .Ten]⟩
          ⟨⟨[heart .Ten, heart .Six]⟩⟩).dealer_hand.hand.cards ++ drawn ∧
      (Context.mk ⟨[heart .Ace]⟩ ⟨[heart .Ten, heart .Ten]⟩
          ⟨⟨[heart .Ten, heart .Six]⟩⟩).deck.cards = drawn ++ ctx'.deck.cards ∧
      17 ≤ ctx'.dealer_score ∧
      (∀ i, i < drawn.length →
        Hand.score ⟨(Context.mk ⟨[heart .Ace]⟩ ⟨[heart .Ten, heart .Ten]⟩
          ⟨⟨[heart .Ten, heart .Six]⟩⟩).dealer_hand.hand.cards ++ drawn.take i⟩ < 17) ∧
      (Context.mk ⟨[heart .Ace]⟩ ⟨[heart .Ten, heart .Ten]⟩
          ⟨⟨[heart .Ten, heart .Six]⟩⟩).dealer_hand.hole_card = some hc ∧
      ctx'.dealer_hand.hole_card = some hc ∧
      (res = Action.DealerWins ∨ res = Action.PlayerWins ∨ res = Action.Draw) ∧
      [Action.PlayerWins, Action.ShowDealerHoleCard (heart .Ten),
        Action.NewDealerCards [heart .Ace]] =
        res :: Action.ShowDealerHoleCard hc ::
          (if drawn = [] then [] else [Action.NewDealerCards drawn]) :=
  stand_plays_dealer
    (Context.mk ⟨[heart .Ace]⟩ ⟨[heart .Ten, heart .Ten]⟩ ⟨⟨[heart .Ten, heart .Six]⟩⟩)
    rfl
    (GameState.PlayerWins (Context.mk ⟨[]⟩ ⟨[heart .Ten, heart .Ten]⟩
      ⟨⟨[heart .Ten, heart .Six, heart .Ace]⟩⟩))
    [Action.PlayerWins, Action.ShowDealerHoleCard (heart .Ten),
      Action.NewDealerCards [heart .Ace]]
    rfl

/-! ### C4: hit -/

/-- C4: from `WaitingForPlayer` on a non-empty deck, `hit` moves the front
card of the deck to the end of the player hand only; on 21 it delegates to
`stand` on the updated state prepending `NewPlayerCard`; on a bust it returns
`DealerWins` with `[NewPlayerCard, DealerWins, ShowDealerHoleCard]`; otherwise
it stays in `WaitingForPlayer` with `[NewPlayerCard]`. -/
theorem hit_draws_one_card (ctx : Context) (c : Card) (rest : List Card)
    (hc : Card) (hdeck : ctx.deck.cards = c :: rest)
    (hhole : ctx.dealer_hand.hole_card = some hc) :
    ctx.deal_player_card = Except.ok (player_dealt_context ctx c rest) ∧
    (player_dealt_context ctx c rest).player_hand.cards =
      ctx.player_hand.cards ++ [c] ∧
    (player_dealt_context ctx c rest).dealer_hand = ctx.dealer_hand ∧
    (player_dealt_context ctx c rest).deck.cards = rest ∧
    hit (GameState.WaitingForPlayer ctx) =
      (if (player_dealt_context ctx c rest).player_score = 21 then
        Except.map (fun p => (p.1, Action.NewPlayerCard c :: p.2))
          (stand (GameState.WaitingForPlayer (player_dealt_context ctx c rest)))
      else if 21 < (player_dealt_context ctx c rest).player_score then
        Except.ok (GameState.DealerWins (player_dealt_context ctx c rest),
          [Action.NewPlayerCard c, Action.DealerWins,
           Action.ShowDealerHoleCard hc])
      else
        Except.ok (GameState.WaitingForPlayer (player_dealt_context ctx c rest),
          [Action.NewPlayerCard c])) := by
  have hdealc : ctx.deal_player_card = Except.ok (player_dealt_context ctx c rest) := by
    simp [Context.deal_player_card, Deck.deal, hdeck, player_dealt_context,
      bind, Except.bind, pure, Except.pure]
  refine ⟨hdealc, by simp [player_dealt_context, Hand.add], rfl, rfl, ?_⟩
  have hlast : (player_dealt_context ctx c rest).player_hand.cards.getLast? = some c := by
    simp [player_dealt_context, Hand.add]
  have hunwrap :
      unwrap_card (player_dealt_context ctx c rest).dealer_hand.hole_card = hc := by
    simp [player_dealt_context, hhole, unwrap_card]
  simp only [hit]
  rw [hdealc]
  simp only [bind, Except.bind, hlast]
  by_cases hp21 : (player_dealt_context ctx c rest).player_score = 21
  · rw [if_pos hp21]
    have hbj : (player_dealt_context ctx c rest).player_blackjack = true := by
      simp [Context.player_blackjack, hp21]
    simp only [hbj, if_pos]
    rcases hst : stand (GameState.WaitingForPlayer (player_dealt_context ctx c rest)) with
      e | ⟨st, acts⟩ <;>
      simp [Except.map, bind, Except.bind, pure, Except.pure]
  · rw [if_neg hp21]
    have hbj : (player_dealt_context ctx c rest).player_blackjack = false := by
      simp [Context.player_blackjack, hp21]
    by_cases hbu : 21 < (player_dealt_context ctx c rest).player_score
    · rw [if_pos hbu]
      have hbust : (player_dealt_context ctx c rest).player_busts = true := by
        simp [Context.player_busts, hbu]
      simp [hbj, hbust, pure, Except.pure, hunwrap]
    · rw [if_neg hbu]
      have hbust : (player_dealt_context ctx c rest).player_busts = false := by
        simp [Context.player_busts, hbu]
      simp [hbj, hbust, pure, Except.pure]

/-- C4 witness: player `[Ace, Four]` hits a Four to reach 19 and stays in
`WaitingForPlayer` (test `player_hits_hand_and_gets_one_card`). -/
theorem hit_draws_one_card_witness :
    (Context.mk ⟨[heart .Four]⟩ ⟨[heart .Ace, heart .Four]⟩
        ⟨⟨[heart .Two, heart .Ten]⟩⟩).deal_player_card =
      Except.ok (player_dealt_context
        (Context.mk ⟨[heart .Four]⟩ ⟨[heart .Ace, heart .Four]⟩
          ⟨⟨[heart .Two, heart .Ten]⟩⟩) (heart .Four) []) ∧
    hit (GameState.WaitingForPlayer (Context.mk ⟨[heart .Four]⟩
        ⟨[heart .Ace, heart .Four]⟩ ⟨⟨[heart .Two, heart .Ten]⟩⟩)) =
      Except.ok (GameState.WaitingForPlayer (player_dealt_context
        (Context.mk ⟨[heart .Four]⟩ ⟨[heart .Ace, heart .Four]⟩
          ⟨⟨[heart .Two, heart .Ten]⟩⟩) (heart .Four) []),
        [Action.NewPlayerCard (heart .Four)]) := by
  have h := hit_draws_one_card
    (Context.mk ⟨[heart .Four]⟩ ⟨[heart .Ace, heart .Four]⟩
      ⟨⟨[heart .Two, heart .Ten]⟩⟩) (heart .Four) [] (heart .Two) rfl rfl
  exact ⟨h.1, by rw [h.2.2.2.2]; rfl⟩

/-! ### C5: the outcome classification of stand -/

/-- C5: when `stand` succeeds from `WaitingForPlayer` with the player not
busted, the resulting state is `DealerWins` iff the dealer outscores the
player without busting, `PlayerWins` iff the player outscores the dealer or
the dealer busts, `Draw` iff the scores are equal; one of the three always
applies and `stand` never returns `WaitingForPlayer`. -/
theorem stand_outcome_classification (ctx ctx' : Context)
    (hplay : ctx.play_dealer_hand = Except.ok ctx')
    (hnb : ctx.player_score ≤ 21) :
    ∃ (st : GameState) (acts : List Action),
      stand (GameState.WaitingForPlayer ctx) = Except.ok (st, acts) ∧
      ((st = GameState.DealerWins ctx') ↔
        (ctx'.player_score < ctx'.dealer_score ∧ ctx'.dealer_score ≤ 21)) ∧
      ((st = GameState.PlayerWins ctx') ↔
        (ctx'.dealer_score < ctx'.player_score ∨ 21 < ctx'.dealer_score)) ∧
      ((st = GameState.Draw ctx') ↔ ctx'.player_score = ctx'.dealer_score) ∧
      (st = GameState.DealerWins ctx' ∨ st = GameState.PlayerWins ctx' ∨
        st = GameState.Draw ctx') ∧
      (∀ c2, st ≠ GameState.WaitingForPlayer c2) := by
  have hps : ctx'.player_score = ctx.player_score := by
    obtain ⟨drawn, hp, _⟩ := play_dealer_hand_ok hplay
    simp [Context.player_score, hp]
  simp only [stand]
  rw [hplay]
  simp only [bind, Except.bind]
  by_cases hdw : ctx'.dealer_wins = true
  · simp only [hdw, if_pos]
    have hda : ctx'.player_score < ctx'.dealer_score ∧ ctx'.dealer_score ≤ 21 := by
      simp [Context.dealer_wins, Context.dealer_busts] at hdw
      omega
    refine ⟨GameState.DealerWins ctx', _, rfl, ?_, ?_, ?_,
      Or.inl rfl, by simp⟩
    · exact ⟨fun _ => hda, fun _ => rfl⟩
    · exact ⟨fun h => by simp at h, fun h => absurd h (by omega)⟩
    · exact ⟨fun h => by simp at h, fun h => absurd h (by omega)⟩
  · simp only [hdw]
    by_cases hpw : ctx'.player_wins = true
    · simp only [hpw, if_pos, Bool.false_eq_true, if_false]
      have hpa : ctx'.dealer_score < ctx'.player_score ∨ 21 < ctx'.dealer_score := by
        simp [Context.player_wins, Context.dealer_busts] at hpw
        omega
      refine ⟨GameState.PlayerWins ctx', _, rfl, ?_, ?_, ?_,
        Or.inr (Or.inl rfl), by simp⟩
      · exact ⟨fun h => by simp at h, fun h => absurd h (by omega)⟩
      · exact ⟨fun _ => hpa, fun _ => rfl⟩
      · exact ⟨fun h => by simp at h, fun h => absurd hpa (by omega)⟩
    · by_cases hdr : ctx'.draw = true
      · simp only [hpw, hdr, if_pos, Bool.false_eq_true, if_false]
        have hda : ctx'.player_score = ctx'.dealer_score := by
          simpa [Context.draw] using hdr
        have hnw : ¬(ctx'.dealer_score < ctx'.player_score ∨ 21 < ctx'.dealer_score) := by
          simp [Context.player_wins, Context.dealer_busts] at hpw
          omega
        refine ⟨GameState.Draw ctx', _, rfl, ?_, ?_, ?_,
          Or.inr (Or.inr rfl), by simp⟩
        · exact ⟨fun h => by simp at h, fun h => absurd h (by omega)⟩
        · exact ⟨fun h => by simp at h, fun h => absurd h hnw⟩
        · exact ⟨fun _ => hda, fun _ => rfl⟩
      · exact absurd (outcome_total ctx' (Bool.not_eq_true _ ▸ hdw)
          (Bool.not_eq_true _ ▸ hpw) (Bool.not_eq_true _ ▸ hdr)) (by simp)

/-- C5 witness: player 20 vs dealer 20 (deck `[Ten, Ten, Ten, Ten]` scenario)
resolves to `Draw`. -/
theorem stand_outcome_classification_witness :
    ∃ (st : GameState) (acts : List Action),
      stand (GameState.WaitingForPlayer (Context.mk ⟨[]⟩
        ⟨[heart .Ten, heart .Ten]⟩ ⟨⟨[heart .Ten, heart .Ten]⟩⟩)) =
        Except.ok (st, acts) ∧
      ((st = GameState.DealerWins (Context.mk ⟨[]⟩ ⟨[heart .Ten, heart .Ten]⟩
          ⟨⟨[heart .Ten, heart .Ten]⟩⟩)) ↔
        ((Context.mk ⟨[]⟩ ⟨[heart .Ten, heart .Ten]⟩
            ⟨⟨[heart .Ten, heart .Ten]⟩⟩).player_score <
          (Context.mk ⟨[]⟩ ⟨[heart .Ten, heart .Ten]⟩
            ⟨⟨[heart .Ten, heart .Ten]⟩⟩).dealer_score ∧
          (Context.mk ⟨[]⟩ ⟨[heart .Ten, heart .Ten]⟩
            ⟨⟨[heart .Ten, heart .Ten]⟩⟩).dealer_score ≤ 21)) ∧
      ((st = GameState.PlayerWins (Context.mk ⟨[]⟩ ⟨[heart .Ten, heart .Ten]⟩
          ⟨⟨[heart .Ten, heart .Ten]⟩⟩)) ↔
        ((Context.mk ⟨[]⟩ ⟨[heart .Ten, heart .Ten]⟩
            ⟨⟨[heart .Ten, heart .Ten]⟩⟩).dealer_score <
          (Context.mk ⟨[]⟩ ⟨[heart .Ten, heart .Ten]⟩
            ⟨⟨[heart .Ten, heart .Ten]⟩⟩).player_score ∨
          21 < (Context.mk ⟨[]⟩ ⟨[heart .Ten, heart .Ten]⟩
            ⟨⟨[heart .Ten, heart .Ten]⟩⟩).dealer_score)) ∧
      ((st = GameState.Draw (Context.mk ⟨[]⟩ ⟨[heart .Ten, heart .Ten]⟩
          ⟨⟨[heart .Ten, heart .Ten]⟩⟩)) ↔
        (Context.mk ⟨[]⟩ ⟨[heart .Ten, heart .Ten]⟩
            ⟨⟨[heart .Ten, heart .Ten]⟩⟩).player_score =
          (Context.mk ⟨[]⟩ ⟨[heart .Ten, heart .Ten]⟩
            ⟨⟨[heart .Ten, heart .Ten]⟩⟩).dealer_score) ∧
      (st = GameState.DealerWins (Context.mk ⟨[]⟩ ⟨[heart .Ten, heart .Ten]⟩
          ⟨⟨[heart .Ten, heart .Ten]⟩⟩) ∨
       st = GameState.PlayerWins (Context.mk ⟨[]⟩ ⟨[heart .Ten, heart .Ten]⟩
          ⟨⟨[heart .Ten, heart .Ten]⟩⟩) ∨
       st = GameState.Draw (Context.mk ⟨[]⟩ ⟨[heart .Ten, heart .Ten]⟩
          ⟨⟨[heart .Ten, heart .Ten]⟩⟩)) ∧
      (∀ c2, st ≠ GameState.WaitingForPlayer c2) :=
  stand_outcome_classification
    (Context.mk ⟨[]⟩ ⟨[heart .Ten, heart .Ten]⟩ ⟨⟨[heart .Ten, heart .Ten]⟩⟩)
    (Context.mk ⟨[]⟩ ⟨[heart .Ten, heart .Ten]⟩ ⟨⟨[heart .Ten, heart .Ten]⟩⟩)
    rfl (by decide)

/-! ### C8: error characterization -/

theorem deal_player_card_ok {ctx ctx2 : Context}
    (h : ctx.deal_player_card = Except.ok ctx2) :
    ∃ c rest, ctx.deck.cards = c :: rest ∧
      ctx2 = player_dealt_context ctx c rest := by
  unfold Context.deal_player_card at h
  rcases hd : ctx.deck.deal with e | ⟨d, c⟩ <;> rw [hd] at h <;>
    simp [bind, Except.bind, pure, Except.pure] at h
  exact ⟨c, d.cards, Deck.deal_ok hd, by rw [← h]; rfl⟩

theorem deal_player_card_error {ctx : Context} {e : GameError}
    (h : ctx.deal_player_card = Except.error e) :
    e = GameError.EmptyDeck ∧ ctx.deck.cards = [] := by
  unfold Context.deal_player_card at h
  rcases hd : ctx.deck.deal with e' | ⟨d, c⟩ <;> rw [hd] at h <;>
    simp [bind, Except.bind, pure, Except.pure] at h
  obtain ⟨he, hc⟩ := Deck.deal_error hd
  exact ⟨h ▸ he, hc⟩

theorem stand_error {ctx : Context} {e : GameError}
    (h : stand (GameState.WaitingForPlayer ctx) = Except.error e) :
    e = GameError.EmptyDeck := by
  simp only [stand] at h
  rcases hp : ctx.play_dealer_hand with e' | ctx' <;> rw [hp] at h
  · simp [bind, Except.bind] at h
    rw [← h]
    exact play_dealer_hand_error hp
  · simp only [bind, Except.bind] at h
    split_ifs at h <;> simp [pure, Except.pure] at h

theorem hit_error {ctx : Context} {e : GameError}
    (h : hit (GameState.WaitingForPlayer ctx) = Except.error e) :
    e = GameError.EmptyDeck := by
  simp only [hit] at h
  rcases hdc : ctx.deal_player_card with e' | ctx2 <;> rw [hdc] at h
  · simp [bind, Except.bind] at h
    rw [← h]
    exact (deal_player_card_error hdc).1
  · simp only [bind, Except.bind] at h
    obtain ⟨c, rest, hdeck, rfl⟩ := deal_player_card_ok hdc
    have hlast : (player_dealt_context ctx c rest).player_hand.cards.getLast? =
        some c := by
      simp [player_dealt_context, Hand.add]
    rw [hlast] at h
    simp only at h
    split_ifs at h
    · rcases hst : stand (GameState.WaitingForPlayer
          (player_dealt_context ctx c rest)) with e'' | p <;> rw [hst] at h <;>
        simp [bind, Except.bind, pure, Except.pure] at h
      rw [← h]
      exact stand_error hst
    · simp [pure, Except.pure] at h
    · simp [pure, Except.pure] at h

theorem deal_from_ready_ok (ctx : Context) (h4 : 4 ≤ ctx.deck.cards.length) :
    ∃ res, deal_from_ready ctx = Except.ok res := by
  rcases hd : ctx.deck.cards with _ | ⟨c1, _ | ⟨c2, _ | ⟨c3, _ | ⟨c4, rest⟩⟩⟩⟩ <;>
    rw [hd] at h4 <;> simp at h4
  unfold deal_from_ready
  rw [deal_initial_hands_eq ctx c1 c2 c3 c4 rest hd]
  simp only [bind, Except.bind]
  split_ifs <;> exact ⟨_, rfl⟩

theorem deal_from_ready_error (ctx : Context) (h : ctx.deck.cards.length < 4) :
    deal_from_ready ctx = Except.error GameError.EmptyDeck := by
  unfold deal_from_ready
  rw [deal_initial_hands_error ctx h]
  simp [bind, Except.bind]

/-- C8: `deal`, `hit` and `stand` fail with `InvalidState` exactly on the
variants for which they are undefined; a valid variant fails only with
`EmptyDeck`, when a required draw finds the deck empty; `NotFoundError` is
never returned. -/
theorem transitions_error_characterization :
    (∀ (fresh : Deck) (ctx : Context),
       deal fresh (GameState.WaitingForPlayer ctx) =
         Except.error GameError.InvalidState) ∧
    (∀ ctx, hit (GameState.Ready ctx) = Except.error GameError.InvalidState) ∧
    (∀ ctx, hit (GameState.DealerWins ctx) = Except.error GameError.InvalidState) ∧
    (∀ ctx, hit (GameState.PlayerWins ctx) = Except.error GameError.InvalidState) ∧
    (∀ ctx, hit (GameState.Draw ctx) = Except.error GameError.InvalidState) ∧
    (∀ ctx, stand (GameState.Ready ctx) = Except.error GameError.InvalidState) ∧
    (∀ ctx, stand (GameState.DealerWins ctx) = Except.error GameError.InvalidState) ∧
    (∀ ctx, stand (GameState.PlayerWins ctx) = Except.error GameError.InvalidState) ∧
    (∀ ctx, stand (GameState.Draw ctx) = Except.error GameError.InvalidState) ∧
    (∀ (fresh : Deck) (ctx : Context), ctx.deck.cards.length < 4 →
       deal fresh (GameState.Ready ctx) = Except.error GameError.EmptyDeck) ∧
    (∀ (fresh : Deck) (ctx : Context), 4 ≤ ctx.deck.cards.length →
       ∃ res, deal fresh (GameState.Ready ctx) = Except.ok res) ∧
    (∀ (fresh : Deck) (ctx : Context), 4 ≤ fresh.cards.length →
       (∃ r1, deal fresh (GameState.DealerWins ctx) = Except.ok r1) ∧
       (∃ r2, deal fresh (GameState.PlayerWins ctx) = Except.ok r2) ∧
       (∃ r3, deal fresh (GameState.Draw ctx) = Except.ok r3)) ∧
    (∀ (ctx : Context) (e : GameError),
       hit (GameState.WaitingForPlayer ctx) = Except.error e →
         e = GameError.EmptyDeck) ∧
    (∀ (ctx : Context) (e : GameError),
       stand (GameState.WaitingForPlayer ctx) = Except.error e →
         e = GameError.EmptyDeck) ∧
    (∀ ctx : Context, ctx.deck.cards = [] →
       hit (GameState.WaitingForPlayer ctx) = Except.error GameError.EmptyDeck) := by
  refine ⟨fun _ _ => rfl, fun _ => rfl, fun _ => rfl, fun _ => rfl, fun _ => rfl,
    fun _ => rfl, fun _ => rfl, fun _ => rfl, fun _ => rfl,
    fun fresh ctx h => deal_from_ready_error ctx h,
    fun fresh ctx h => deal_from_ready_ok ctx h,
    fun fresh ctx h => ⟨deal_from_ready_ok (Context.new fresh) h,
      deal_from_ready_ok (Context.new fresh) h,
      deal_from_ready_ok (Context.new fresh) h⟩,
    fun ctx e h => hit_error h, fun ctx e h => stand_error h,
    fun ctx h => ?_⟩
  simp only [hit]
  have : ctx.deal_player_card = Except.error GameError.EmptyDeck := by
    unfold Context.deal_player_card Deck.deal
    rw [h]
    rfl
  rw [this]
  rfl

/-- C8 witness: `deal` fails with `EmptyDeck` on an empty deck and `hit`
fails with `EmptyDeck` when the deck is exhausted. -/
theorem transitions_error_characterization_witness :
    deal ⟨[]⟩ (GameState.Ready (Context.new ⟨[]⟩)) =
      Except.error GameError.EmptyDeck ∧
    hit (GameState.WaitingForPlayer (Context.new ⟨[]⟩)) =
      Except.error GameError.EmptyDeck := by
  obtain ⟨-, -, -, -, -, -, -, -, -, h10, -, -, -, -, h15⟩ :=
    transitions_error_characterization
  exact ⟨h10 ⟨[]⟩ (Context.new ⟨[]⟩) (by decide), h15 (Context.new ⟨[]⟩) rfl⟩

/-! ### Permutation helpers for deck conservation -/

theorem perm_shift_dealt (c1 c2 c3 c4 : Card) (rest std : List Card)
    (h : (c1 :: c2 :: c3 :: c4 :: rest).Perm std) :
    (rest ++ [c1, c3] ++ [c2, c4]).Perm std := by
  refine List.Perm.trans ?_ h
  have hA : (rest ++ [c1, c3] ++ [c2, c4]).Perm (([c1, c3] ++ [c2, c4]) ++ rest) := by
    rw [← Multiset.coe_eq_coe]
    repeat rw [← Multiset.coe_add]
    abel
  have hB : (([c1, c3] ++ [c2, c4]) ++ rest).Perm ([c1, c2, c3, c4] ++ rest) :=
    (List.Perm.cons c1 (List.Perm.swap c2 c3 [c4])).append_right rest
  exact hA.trans hB

theorem perm_shift_hit (c : Card) (rest pl dl std : List Card)
    (h : ((c :: rest) ++ pl ++ dl).Perm std) :
    (rest ++ (pl ++ [c]) ++ dl).Perm std := by
  refine List.Perm.trans ?_ h
  have hc : (c :: rest) = [c] ++ rest := rfl
  rw [hc, ← Multiset.coe_eq_coe]
  repeat rw [← Multiset.coe_add]
  abel

theorem perm_shift_play (drawn deckrest pl dl std : List Card)
    (h : ((drawn ++ deckrest) ++ pl ++ dl).Perm std) :
    (deckrest ++ pl ++ (dl ++ drawn)).Perm std := by
  refine List.Perm.trans ?_ h
  rw [← Multiset.coe_eq_coe]
  repeat rw [← Multiset.coe_add]
  abel

theorem player_subperm (ctx : Context) (h : handsPerm ctx) :
    ctx.player_hand.cards.Subperm Deck.standard_deck.cards := by
  unfold handsPerm at h
  have h1 : List.Sublist ctx.player_hand.cards
      (ctx.deck.cards ++ ctx.player_hand.cards) :=
    List.sublist_append_right _ _
  have h2 : List.Sublist (ctx.deck.cards ++ ctx.player_hand.cards)
      ((ctx.deck.cards ++ ctx.player_hand.cards) ++ ctx.dealer_hand.hand.cards) :=
    List.sublist_append_left _ _
  exact ((h1.trans h2).subperm).trans h.subperm

theorem dealer_stage_subperm (ctx : Context) (h : handsPerm ctx)
    (drawn deckrest : List Card) (hdeck : ctx.deck.cards = drawn ++ deckrest)
    (pre : List Card) (hpre : List.Sublist pre drawn) :
    (ctx.dealer_hand.hand.cards ++ pre).Subperm Deck.standard_deck.cards := by
  unfold handsPerm at h
  have p1 : (ctx.dealer_hand.hand.cards ++ pre).Perm
      (pre ++ ctx.dealer_hand.hand.cards) := List.perm_append_comm
  have s2 : List.Sublist pre ctx.deck.cards := by
    rw [hdeck]
    exact hpre.trans (List.sublist_append_left _ _)
  have s3 : List.Sublist (pre ++ ctx.dealer_hand.hand.cards)
      (ctx.deck.cards ++ (ctx.player_hand.cards ++ ctx.dealer_hand.hand.cards)) :=
    s2.append (List.sublist_append_right _ _)
  have e : ctx.deck.cards ++ (ctx.player_hand.cards ++ ctx.dealer_hand.hand.cards) =
      ctx.deck.cards ++ ctx.player_hand.cards ++ ctx.dealer_hand.hand.cards :=
    (List.append_assoc _ _ _).symm
  exact p1.subperm.trans ((s3.subperm).trans ((e ▸ h).subperm))

/-- A hand drawn from the standard deck holds at most 4 Aces. -/
theorem ace_count_le_four {cards : List Card}
    (hsub : cards.Subperm Deck.standard_deck.cards) :
    (Hand.mk cards).ace_count ≤ 4 := by
  have h := hsub.countP_le (fun c => decide (c.rank = Rank.Ace))
  have hstd : Deck.standard_deck.cards.countP
      (fun c => decide (c.rank = Rank.Ace)) = 4 := by decide
  unfold Hand.ace_count
  dsimp only
  rw [← List.countP_eq_length_filter]
  omega

theorem deal_initial_hands_ok {ctx ctx2 : Context}
    (h : ctx.deal_initial_hands = Except.ok ctx2) :
    ∃ c1 c2 c3 c4 rest, ctx.deck.cards = c1 :: c2 :: c3 :: c4 :: rest ∧
      ctx2 = dealt_context c1 c2 c3 c4 rest := by
  rcases hd : ctx.deck.cards with _ | ⟨c1, _ | ⟨c2, _ | ⟨c3, _ | ⟨c4, rest⟩⟩⟩⟩
  · rw [deal_initial_hands_error ctx (by rw [hd]; simp)] at h; cases h
  · rw [deal_initial_hands_error ctx (by rw [hd]; simp)] at h; cases h
  · rw [deal_initial_hands_error ctx (by rw [hd]; simp)] at h; cases h
  · rw [deal_initial_hands_error ctx (by rw [hd]; simp)] at h; cases h
  · rw [deal_initial_hands_eq ctx c1 c2 c3 c4 rest hd] at h
    exact ⟨c1, c2, c3, c4, rest, rfl, by injection h with h2; rw [h2]⟩

/-- Hard-total bound through the dealer loop: if the base hand's hard total
is at most 67 and every draw happens at a score below 17 with the running
hand drawn from the standard deck, the final hard total stays at most 67. -/
theorem dealer_hard_bound : ∀ (drawn base : List Card),
    hard_total base ≤ 67 →
    (∀ i, i ≤ drawn.length → (base ++ drawn.take i).Subperm Deck.standard_deck.cards) →
    (∀ i, i < drawn.length → Hand.score ⟨base ++ drawn.take i⟩ < 17) →
    hard_total (base ++ drawn) ≤ 67 := by
  intro drawn
  induction drawn with
  | nil => intro base hb _ _; simpa using hb
  | cons d tl ih =>
    intro base hb hsub hg
    have hg0 : Hand.score ⟨base⟩ < 17 := by simpa using hg 0 (by simp)
    have hsub0 : base.Subperm Deck.standard_deck.cards := by
      simpa using hsub 0 (by simp)
    have haces := ace_count_le_four hsub0
    have hb255 : hard_total base ≤ 255 := by omega
    have hspec : Hand.score ⟨base⟩ = spec_score ⟨base⟩ :=
      score_eq_spec (h := ⟨base⟩) hb255
    have hh := hard_total_le_spec_score ⟨base⟩
    dsimp only at hh
    have hbase56 : hard_total base ≤ 56 := by
      rw [← hspec] at hh
      omega
    have hbase' : hard_total (base ++ [d]) ≤ 67 := by
      rw [hard_total_append]
      have hv := to_value_le d.rank
      have hsingle : hard_total [d] = d.rank.to_value := by simp [hard_total]
      omega
    have hsub' : ∀ i, i ≤ tl.length →
        ((base ++ [d]) ++ tl.take i).Subperm Deck.standard_deck.cards := by
      intro i hi
      have := hsub (i + 1) (by simpa using hi)
      simpa [List.append_assoc] using this
    have hg' : ∀ i, i < tl.length →
        Hand.score ⟨(base ++ [d]) ++ tl.take i⟩ < 17 := by
      intro i hi
      have := hg (i + 1) (by simpa using hi)
      simpa [List.append_assoc] using this
    have := ih (base ++ [d]) hbase' hsub' hg'
    simpa [List.append_assoc] using this

/-! ### Invariant preservation -/

theorem stand_inv (ctx : Context) (st : GameState) (acts : List Action)
    (hperm : handsPerm ctx)
    (hplen : 2 ≤ ctx.player_hand.cards.length)
    (hphard : hard_total ctx.player_hand.cards ≤ 255)
    (hdlen : ctx.dealer_hand.hand.cards.length = 2)
    (hok : stand (GameState.WaitingForPlayer ctx) = Except.ok (st, acts)) :
    Inv st := by
  simp only [stand] at hok
  rcases hplay : ctx.play_dealer_hand with e | ctx' <;> rw [hplay] at hok
  · simp [bind, Except.bind] at hok
  · simp only [bind, Except.bind] at hok
    obtain ⟨drawn, hp, hdl, hdeck, hsc17, hguard⟩ := play_dealer_hand_ok hplay
    have hperm' : handsPerm ctx' := by
      unfold handsPerm
      rw [hp, hdl]
      apply perm_shift_play drawn ctx'.deck.cards _ _ _
      rw [← hdeck]
      exact hperm
    obtain ⟨a, b, hab⟩ : ∃ a b, ctx.dealer_hand.hand.cards = [a, b] := by
      rcases hl : ctx.dealer_hand.hand.cards with _ | ⟨x, _ | ⟨y, _ | _⟩⟩
      · rw [hl] at hdlen; simp at hdlen
      · rw [hl] at hdlen; simp at hdlen
      · exact ⟨x, y, rfl⟩
      · rw [hl] at hdlen; simp at hdlen
    have hdhard : hard_total ctx'.dealer_hand.hand.cards ≤ 67 := by
      rw [hdl]
      refine dealer_hard_bound drawn ctx.dealer_hand.hand.cards ?_ ?_ hguard
      · rw [hab]
        exact le_trans (hard_total_two_cards a b) (by omega)
      · intro i hi
        exact dealer_stage_subperm ctx hperm drawn ctx'.deck.cards hdeck
          (drawn.take i) (List.take_sublist i drawn)
    have hphard' : hard_total ctx'.player_hand.cards ≤ 255 := by
      rw [hp]; exact hphard
    have hplen' : 2 ≤ ctx'.player_hand.cards.length := by
      rw [hp]; exact hplen
    have hdlen' : 2 ≤ ctx'.dealer_hand.hand.cards.length := by
      rw [hdl]
      simp only [List.length_append, hdlen]
      omega
    by_cases hdw : ctx'.dealer_wins = true
    · rw [if_pos hdw] at hok
      simp only [pure, Except.pure, Except.ok.injEq, Prod.mk.injEq] at hok
      rw [← hok.1]
      exact ⟨hperm', hphard', le_trans hdhard (by omega), hplen', hdlen'⟩
    · rw [if_neg hdw] at hok
      by_cases hpw : ctx'.player_wins = true
      · rw [if_pos hpw] at hok
        simp only [pure, Except.pure, Except.ok.injEq, Prod.mk.injEq] at hok
        rw [← hok.1]
        exact ⟨hperm', hphard', le_trans hdhard (by omega), hplen', hdlen'⟩
      · rw [if_neg hpw] at hok
        by_cases hdr : ctx'.draw = true
        · rw [if_pos hdr] at hok
          simp only [pure, Except.pure, Except.ok.injEq, Prod.mk.injEq] at hok
          rw [← hok.1]
          exact ⟨hperm', hphard', le_trans hdhard (by omega), hplen', hdlen'⟩
        · exact absurd (outcome_total ctx' (Bool.not_eq_true _ ▸ hdw)
            (Bool.not_eq_true _ ▸ hpw) (Bool.not_eq_true _ ▸ hdr)) (by simp)

theorem hit_inv (ctx : Context) (st : GameState) (acts : List Action)
    (hperm : handsPerm ctx)
    (hphard : hard_total ctx.player_hand.cards ≤ 255)
    (hdhard : hard_total ctx.dealer_hand.hand.cards ≤ 255)
    (hsc : ctx.player_score < 21)
    (hplen : 2 ≤ ctx.player_hand.cards.length)
    (hdlen : ctx.dealer_hand.hand.cards.length = 2)
    (hok : hit (GameState.WaitingForPlayer ctx) = Except.ok (st, acts)) :
    Inv st := by
  simp only [hit] at hok
  rcases hdc : ctx.deal_player_card with e | ctx2 <;> rw [hdc] at hok
  · simp [bind, Except.bind] at hok
  · simp only [bind, Except.bind] at hok
    obtain ⟨c, rest, hdeck, rfl⟩ := deal_player_card_ok hdc
    have hlast : (player_dealt_context ctx c rest).player_hand.cards.getLast? =
        some c := by
      simp [player_dealt_context, Hand.add]
    rw [hlast] at hok
    simp only at hok
    have hperm2 : handsPerm (player_dealt_context ctx c rest) := by
      unfold handsPerm at hperm ⊢
      rw [hdeck] at hperm
      exact perm_shift_hit c rest ctx.player_hand.cards
        ctx.dealer_hand.hand.cards _ hperm
    have hcards2 : (player_dealt_context ctx c rest).player_hand.cards =
        ctx.player_hand.cards ++ [c] := rfl
    have hphard2 : hard_total (player_dealt_context ctx c rest).player_hand.cards ≤ 255 := by
      rw [hcards2, hard_total_append]
      have haces : ctx.player_hand.ace_count ≤ 4 :=
        ace_count_le_four (player_subperm ctx hperm)
      have hspec : ctx.player_hand.score = spec_score ctx.player_hand :=
        score_eq_spec hphard
      have hh := hard_total_le_spec_score ctx.player_hand
      have hv := to_value_le c.rank
      have hsingle : hard_total [c] = c.rank.to_value := by simp [hard_total]
      have hscore : ctx.player_hand.score < 21 := hsc
      rw [← hspec] at hh
      omega
    have hplen2 : 2 ≤ (player_dealt_context ctx c rest).player_hand.cards.length := by
      rw [hcards2]
      simp only [List.length_append, List.length_cons, List.length_nil]
      omega
    have hdlen2 : (player_dealt_context ctx c rest).dealer_hand.hand.cards.length = 2 :=
      hdlen
    split_ifs at hok with h1 h2
    · rcases hst : stand (GameState.WaitingForPlayer
          (player_dealt_context ctx c rest)) with e' | ⟨st2, acts2⟩
      · rw [hst] at hok
        have hok2 : (Except.error e' : Except GameError (GameState × List Action)) =
            Except.ok (st, acts) := hok
        cases hok2
      · rw [hst] at hok
        have hok2 : Except.ok (st2, Action.NewPlayerCard c :: acts2) =
            Except.ok (st, acts) := hok
        simp only [Except.ok.injEq, Prod.mk.injEq] at hok2
        rw [← hok2.1]
        exact stand_inv _ st2 acts2 hperm2 hplen2 hphard2 hdlen2 hst
    · simp only [pure, Except.pure, Except.ok.injEq, Prod.mk.injEq] at hok
      rw [← hok.1]
      exact ⟨hperm2, hphard2, hdhard, hplen2, le_of_eq hdlen2.symm⟩
    · simp only [pure, Except.pure, Except.ok.injEq, Prod.mk.injEq] at hok
      rw [← hok.1]
      have hsc2 : (player_dealt_context ctx c rest).player_score < 21 := by
        simp [Context.player_blackjack] at h1
        simp [Context.player_busts] at h2
        omega
      exact ⟨hperm2, hphard2, hdhard, hsc2, hplen2, hdlen2⟩

theorem deal_from_ready_inv (ctx : Context) (st : GameState) (acts : List Action)
    (hperm : handsPerm ctx) (hpe : ctx.player_hand = Hand.new)
    (hde : ctx.dealer_hand = DealerHand.new)
    (hok : deal_from_ready ctx = Except.ok (st, acts)) : Inv st := by
  rcases hdi : ctx.deal_initial_hands with e | ctx2
  · unfold deal_from_ready at hok
    rw [hdi] at hok
    simp [bind, Except.bind] at hok
  · obtain ⟨c1, c2, c3, c4, rest, hd, hctx2⟩ := deal_initial_hands_ok hdi
    subst hctx2
    have hperm' : handsPerm (dealt_context c1 c2 c3 c4 rest) := by
      unfold handsPerm at hperm ⊢
      rw [hpe, hde] at hperm
      simp only [Hand.new, DealerHand.new, List.append_nil] at hperm
      rw [hd] at hperm
      exact perm_shift_dealt c1 c2 c3 c4 rest _ hperm
    have hp255 : hard_total (dealt_context c1 c2 c3 c4 rest).player_hand.cards ≤ 255 :=
      le_trans (hard_total_two_cards c1 c3) (by omega)
    have hd255 : hard_total (dealt_context c1 c2 c3 c4 rest).dealer_hand.hand.cards ≤ 255 :=
      le_trans (hard_total_two_cards c2 c4) (by omega)
    have hlenp : 2 ≤ (dealt_context c1 c2 c3 c4 rest).player_hand.cards.length := by
      simp [dealt_context]
    have hlend : 2 ≤ (dealt_context c1 c2 c3 c4 rest).dealer_hand.hand.cards.length := by
      simp [dealt_context]
    unfold deal_from_ready at hok
    rw [hdi] at hok
    simp only [bind, Except.bind] at hok
    split_ifs at hok with h1 h2 h3 <;>
      simp only [pure, Except.pure, Except.ok.injEq, Prod.mk.injEq] at hok <;>
      rw [← hok.1]
    · exact ⟨hperm', hp255, hd255, hlenp, hlend⟩
    · exact ⟨hperm', hp255, hd255, hlenp, hlend⟩
    · exact ⟨hperm', hp255, hd255, hlenp, hlend⟩
    · have hsc : (dealt_context c1 c2 c3 c4 rest).player_score < 21 := by
        simp [Context.player_blackjack] at h3
        have h21 := score_two_cards c1 c3
        have heq : (dealt_context c1 c2 c3 c4 rest).player_score =
            Hand.score ⟨[c1, c3]⟩ := rfl
        omega
      exact ⟨hperm', hp255, hd255, hsc, hlenp, rfl⟩

/-- Every reachable state satisfies the invariant `Inv`. -/
theorem reachable_inv (s : GameState) (h : Reachable s) : Inv s := by
  induction h with
  | init d hperm =>
    refine ⟨?_, by simp [GameState.context, Context.new, Hand.new, hard_total],
      by simp [GameState.context, Context.new, DealerHand.new, Hand.new, hard_total],
      rfl, rfl⟩
    unfold handsPerm
    simpa [GameState.context, Context.new, Hand.new, DealerHand.new] using hperm
  | deal_step fresh s s' acts hperm hs hok ih =>
    rcases s with ctx | ctx | ctx | ctx | ctx
    · obtain ⟨hP, -, -, hpe, hde⟩ := ih
      exact deal_from_ready_inv ctx s' acts hP hpe hde hok
    · simp [deal] at hok
    · refine deal_from_ready_inv (Context.new fresh) s' acts ?_ rfl rfl hok
      unfold handsPerm
      simpa [Context.new, Hand.new, DealerHand.new] using hperm
    · refine deal_from_ready_inv (Context.new fresh) s' acts ?_ rfl rfl hok
      unfold handsPerm
      simpa [Context.new, Hand.new, DealerHand.new] using hperm
    · refine deal_from_ready_inv (Context.new fresh) s' acts ?_ rfl rfl hok
      unfold handsPerm
      simpa [Context.new, Hand.new, DealerHand.new] using hperm
  | hit_step s s' acts hs hok ih =>
    rcases s with ctx | ctx | ctx | ctx | ctx
    · simp [hit] at hok
    · obtain ⟨hP, hp2, hd2, hsc, hpl, hdl⟩ := ih
      exact hit_inv ctx s' acts hP hp2 hd2 hsc hpl hdl hok
    · simp [hit] at hok
    · simp [hit] at hok
    · simp [hit] at hok
  | stand_step s s' acts hs hok ih =>
    rcases s with ctx | ctx | ctx | ctx | ctx
    · simp [stand] at hok
    · obtain ⟨hP, hp2, hd2, hsc, hpl, hdl⟩ := ih
      exact stand_inv ctx s' acts hP hpl hp2 hdl hok
    · simp [stand] at hok
    · simp [stand] at hok
    · simp [stand] at hok

/-! ### C7, C9, C10: consequences of the invariant -/

/-- C7: for every state reachable from `GameState::new()` by successful
`deal`, `hit` and `stand` transitions, the cards of the deck, the player hand
and the dealer hand together are a permutation of (hence the same multiset
as) the standard 52-card deck. -/
theorem deck_conservation (s : GameState) (h : Reachable s) :
    (s.context.deck.cards ++ s.context.player_hand.cards ++
      s.context.dealer_hand.hand.cards).Perm Deck.standard_deck.cards :=
  (reachable_inv s h).1

/-- C7 witness: the freshly created game state. -/
theorem deck_conservation_witness :
    ((GameState.Ready (Context.new Deck.standard_deck)).context.deck.cards ++
      (GameState.Ready (Context.new Deck.standard_deck)).context.player_hand.cards ++
      (GameState.Ready (Context.new Deck.standard_deck)).context.dealer_hand.hand.cards).Perm
      Deck.standard_deck.cards :=
  deck_conservation _ (Reachable.init Deck.standard_deck (List.Perm.refl _))

theorem two_le_length_shape (l : List Card) (h : 2 ≤ l.length) :
    ∃ a b t, l = a :: b :: t := by
  rcases l with _ | ⟨a, _ | ⟨b, t⟩⟩
  · simp at h
  · simp at h
  · exact ⟨a, b, t, rfl⟩

/-- C9: every reachable non-`Ready` state carries a context whose dealer hand
and player hand hold at least 2 cards, so `hole_card()` and `upcard()` return
`Some` and the `unwrap()` calls in `deal`, `hit` and `stand` cannot panic. -/
theorem dealer_hand_two_cards (s : GameState) (h : Reachable s) (ctx : Context)
    (hvar : s = GameState.WaitingForPlayer ctx ∨ s = GameState.DealerWins ctx ∨
      s = GameState.PlayerWins ctx ∨ s = GameState.Draw ctx) :
    2 ≤ ctx.dealer_hand.hand.cards.length ∧
    2 ≤ ctx.player_hand.cards.length ∧
    (∃ hc, ctx.dealer_hand.hole_card = some hc) ∧
    (∃ uc, ctx.dealer_hand.upcard = some uc) := by
  have hinv := reachable_inv s h
  have hlen : 2 ≤ ctx.dealer_hand.hand.cards.length ∧
      2 ≤ ctx.player_hand.cards.length := by
    rcases hvar with rfl | rfl | rfl | rfl
    · obtain ⟨-, -, -, -, hpl, hdl⟩ := hinv
      exact ⟨le_of_eq hdl.symm, hpl⟩
    · obtain ⟨-, -, -, hpl, hdl⟩ := hinv
      exact ⟨hdl, hpl⟩
    · obtain ⟨-, -, -, hpl, hdl⟩ := hinv
      exact ⟨hdl, hpl⟩
    · obtain ⟨-, -, -, hpl, hdl⟩ := hinv
      exact ⟨hdl, hpl⟩
  obtain ⟨a, b, t, hab⟩ := two_le_length_shape _ hlen.1
  refine ⟨hlen.1, hlen.2, ⟨a, ?_⟩, ⟨b, ?_⟩⟩
  · simp [DealerHand.hole_card, hab]
  · simp [DealerHand.upcard, hab]

/-- C9 witness: the state after dealing from the unshuffled standard deck. -/
theorem dealer_hand_two_cards_witness :
    2 ≤ (Context.mk ⟨Deck.standard_deck.cards.drop 4⟩
      ⟨[heart .Two, heart .Four]⟩
      ⟨⟨[heart .Three, heart .Five]⟩⟩).dealer_hand.hand.cards.length ∧
    2 ≤ (Context.mk ⟨Deck.standard_deck.cards.drop 4⟩
      ⟨[heart .Two, heart .Four]⟩
      ⟨⟨[heart .Three, heart .Five]⟩⟩).player_hand.cards.length ∧
    (∃ hc, (Context.mk ⟨Deck.standard_deck.cards.drop 4⟩
      ⟨[heart .Two, heart .Four]⟩
      ⟨⟨[heart .Three, heart .Five]⟩⟩).dealer_hand.hole_card = some hc) ∧
    (∃ uc, (Context.mk ⟨Deck.standard_deck.cards.drop 4⟩
      ⟨[heart .Two, heart .Four]⟩
      ⟨⟨[heart .Three, heart .Five]⟩⟩).dealer_hand.upcard = some uc) :=
  dealer_hand_two_cards _
    (Reachable.deal_step Deck.standard_deck
      (GameState.Ready (Context.new Deck.standard_deck)) _
      [new_hand_action (Context.mk ⟨Deck.standard_deck.cards.drop 4⟩
        ⟨[heart .Two, heart .Four]⟩ ⟨⟨[heart .Three, heart .Five]⟩⟩)]
      (List.Perm.refl _)
      (Reachable.init Deck.standard_deck (List.Perm.refl _)) rfl)
    _ (Or.inl rfl)

/-- C10: `Hand::score` accumulates in a `u8`: it equals the exact blackjack
total whenever the hard total fits in 255, every reachable hand satisfies
that bound, and a 26-ten-card hand built by repeated `add` wraps (score 4,
not the true 260). -/
theorem score_u8_exactness :
    (∀ h : Hand, hard_total h.cards ≤ 255 → h.score = spec_score h) ∧
    (∀ s : GameState, Reachable s →
      hard_total s.context.player_hand.cards ≤ 255 ∧
      hard_total s.context.dealer_hand.hand.cards ≤ 255) ∧
    hard_total (List.replicate 26 (heart .Ten)) = 260 ∧
    Hand.score ⟨List.replicate 26 (heart .Ten)⟩ = 4 ∧
    Hand.score ⟨List.replicate 26 (heart .Ten)⟩ ≠
      spec_score ⟨List.replicate 26 (heart .Ten)⟩ :=
  ⟨fun _ hb => score_eq_spec hb,
   fun s hs => ⟨(reachable_inv s hs).2.1, (reachable_inv s hs).2.2.1⟩,
   by decide, by decide, by decide⟩

/-- C10 witness: exactness at a small hand and the bound at a reachable state. -/
theorem score_u8_exactness_witness :
    Hand.score ⟨[heart .Ten, heart .Ten]⟩ = spec_score ⟨[heart .Ten, heart .Ten]⟩ ∧
    (hard_total (GameState.Ready (Context.new Deck.standard_deck)).context.player_hand.cards ≤ 255 ∧
     hard_total (GameState.Ready (Context.new Deck.standard_deck)).context.dealer_hand.hand.cards ≤ 255) :=
  ⟨score_u8_exactness.1 ⟨[heart .Ten, heart .Ten]⟩ (by decide),
   score_u8_exactness.2.1 _ (Reachable.init Deck.standard_deck (List.Perm.refl _))⟩

end Blackjack
